import Mathlib

/-!
Verification of the photo-gallery backend (server.js): a shallow embedding of
the document store and the six HTTP handlers, followed by theorems about them.

JS numbers that may be NaN (results of `parseInt`) are modelled as `Option Int`
with `none` standing for NaN; strict equality `===` on such numbers is `jsEqNum`,
which is false whenever either side is NaN.  The backing file is modelled by
`FileState`; each handler is a pure function from a `FileState` and the request
data to the new `FileState` and the HTTP response.
-/

namespace OnPoint

/-- A client record, as stored in db.json.  `email` and `phone` are optional. -/
structure Client where
  id : Int
  name : String
  email : Option String
  phone : Option String
deriving DecidableEq, Repr

/-- A photo record, as stored in db.json.  `clientId` is the result of
`parseInt` on the uploaded form field, hence possibly NaN (`none`). -/
structure Photo where
  id : Int
  clientId : Option Int
  name : String
  url : String
  size : Nat
  uploaded : String
  favorite : Bool
deriving DecidableEq, Repr

/-- The root document `{clients: [...], photos: [...]}`. -/
structure Db where
  clients : List Client
  photos : List Photo
deriving DecidableEq, Repr

def emptyDb : Db := { clients := [], photos := [] }

/-- State of the backing file db.json.  `missing` = the file does not exist
(reads throw with code ENOENT); `unreadable c` = reading throws a filesystem
error whose `code` property is `c` (`none` when the error has no code);
`malformed` = the bytes read do not parse as JSON; `stored db` = the file
holds the serialization of `db`. -/
inductive FileState where
  | missing
  | unreadable (code : Option String)
  | malformed
  | stored (db : Db)
deriving DecidableEq, Repr

/-- Errors surfaced by the document store. -/
inductive JsErr where
  | fsError (code : Option String)
  | parseError
deriving DecidableEq, Repr

/-- readDb from server.js: read the file and JSON.parse it; an error whose
`code` is ENOENT yields the default empty document, any other error (including
a SyntaxError from JSON.parse, which has no `code`) is rethrown. -/
def readDb : FileState → Except JsErr Db
  | .missing => .ok emptyDb
  | .unreadable c => if c = some "ENOENT" then .ok emptyDb else .error (.fsError c)
  | .malformed => .error .parseError
  | .stored db => .ok db

/-- writeDb from server.js: serialize the whole document over the file. -/
def writeDb (db : Db) : FileState := .stored db

/-- JS strict equality `===` on numbers that may be NaN (`none`):
`NaN === x` is false for every `x`, including NaN itself. -/
def jsEqNum : Option Int → Option Int → Bool
  | some a, some b => a == b
  | _, _ => false

/-- Numeric value of a character as a digit for radices up to 16, as JS
parseInt accepts it; `none` if it is not a digit. -/
def digitVal (c : Char) : Option Nat :=
  if '0' ≤ c ∧ c ≤ '9' then some (c.toNat - '0'.toNat)
  else if 'a' ≤ c ∧ c ≤ 'f' then some (c.toNat - 'a'.toNat + 10)
  else if 'A' ≤ c ∧ c ≤ 'F' then some (c.toNat - 'A'.toNat + 10)
  else none

/-- Longest prefix of digits valid in the given radix. -/
def takeDigits (radix : Nat) : List Char → List Nat
  | [] => []
  | c :: cs =>
    match digitVal c with
    | some v => if v < radix then v :: takeDigits radix cs else []
    | none => []

def digitsVal (radix : Nat) (ds : List Nat) : Nat :=
  ds.foldl (fun a d => a * radix + d) 0

/-- JS `parseInt(s)` with no radix argument: skip leading whitespace, read an
optional sign, honour a `0x`/`0X` hex prefix, then take the longest valid
digit prefix; NaN (`none`) when no digit is found. -/
def parseIntJS (s : String) : Option Int :=
  let cs0 := s.toList.dropWhile (fun c => c.isWhitespace)
  let sign : Int := match cs0 with
    | '-' :: _ => -1
    | _ => 1
  let cs1 := match cs0 with
    | '-' :: rest => rest
    | '+' :: rest => rest
    | _ => cs0
  let radix : Nat := match cs1 with
    | '0' :: 'x' :: _ => 16
    | '0' :: 'X' :: _ => 16
    | _ => 10
  let cs2 := match cs1 with
    | '0' :: 'x' :: rest => rest
    | '0' :: 'X' :: rest => rest
    | _ => cs1
  match takeDigits radix cs2 with
  | [] => none
  | ds => some (sign * (digitsVal radix ds : Int))

/-- Math.max over a spread of a non-empty list ([] is never passed by the
handlers, which guard on length). -/
def maxIds : List Int → Int
  | [] => 0
  | x :: xs => xs.foldl max x

/-- HTTP responses produced by the handlers, with their payloads. -/
inductive Response where
  | okData (db : Db)
  | createdClient (c : Client)
  | createdPhotos (ps : List Photo)
  | okMsg (m : String)
  | okPhoto (p : Photo)
  | badRequest (m : String)
  | notFound (m : String)
  | serverError (m : String)
deriving DecidableEq, Repr

/-- GET /api/data: read the document and return it verbatim; 500 on read
failure.  Performs no write. -/
def getData (s : FileState) : FileState × Response :=
  match readDb s with
  | .ok db => (s, .okData db)
  | .error _ => (s, .serverError "Error reading data")

/-- POST /api/clients: `if (!name)` rejects an absent or empty name before the
document is read; otherwise the new id is `max(existing ids) + 1`, or 1 when
the clients list is empty, and the new client is appended and saved. -/
def postClients (s : FileState) (name email phone : Option String) :
    FileState × Response :=
  match name with
  | none => (s, .badRequest "Client name is required")
  | some nm =>
    if nm = "" then (s, .badRequest "Client name is required")
    else
      match readDb s with
      | .error _ => (s, .serverError "Error creating client")
      | .ok db =>
        let newId : Int :=
          if db.clients.length > 0 then maxIds (db.clients.map (·.id)) + 1 else 1
        let newClient : Client := { id := newId, name := nm, email := email, phone := phone }
        (writeDb { db with clients := db.clients ++ [newClient] }, .createdClient newClient)

/-- findIndex followed by splice(i, 1): remove the first element satisfying
the predicate, `none` when there is none (findIndex returned -1). -/
def spliceFirst (p : α → Bool) : List α → Option (List α)
  | [] => none
  | x :: xs => if p x then some xs else (spliceFirst p xs).map (x :: ·)

/-- DELETE /api/clients/:id after `parseInt` of the path parameter: 404 when no
client's id strictly equals it; otherwise remove that client, drop every photo
whose `clientId` strictly equals it (blob unlink is best-effort and does not
touch the document), and save. -/
def deleteClientP (s : FileState) (cid : Option Int) : FileState × Response :=
  match readDb s with
  | .error _ => (s, .serverError "Error deleting client")
  | .ok db =>
    match spliceFirst (fun c => jsEqNum (some c.id) cid) db.clients with
    | none => (s, .notFound "Client not found")
    | some clients1 =>
      let photos1 := db.photos.filter (fun p => ! jsEqNum p.clientId cid)
      (writeDb { clients := clients1, photos := photos1 },
       .okMsg "Client and associated photos deleted")

/-- DELETE /api/clients/:id on the raw path parameter. -/
def deleteClient (s : FileState) (idStr : String) : FileState × Response :=
  deleteClientP s (parseIntJS idStr)

/-- A file as multer hands it to the handler: original name, server-generated
unique filename, byte size. -/
structure UploadedFile where
  originalname : String
  filename : String
  size : Nat
deriving DecidableEq, Repr

/-- One photo record of an upload batch: `i` is the file's position in the
batch, `maxId` the pre-existing maximum photo id. -/
def mkPhoto (maxId : Int) (cid : String) (now : String) (fi : Nat × UploadedFile) : Photo :=
  { id := maxId + (fi.1 : Int) + 1
    clientId := parseIntJS cid
    name := fi.2.originalname
    url := "/uploads/" ++ fi.2.filename
    size := fi.2.size
    uploaded := now
    favorite := false }

/-- POST /api/photos: `if (!clientId || !req.files || req.files.length === 0)`
rejects before the document is read; otherwise ids are `maxId + i + 1` per file
in arrival order, `clientId` is `parseInt` of the form field, `favorite` is
false, and the batch is appended, saved, and returned in order. -/
def postPhotos (s : FileState) (clientId : Option String)
    (files : List UploadedFile) (now : String) : FileState × Response :=
  match clientId with
  | none => (s, .badRequest "Client ID and files are required")
  | some cid =>
    if cid = "" ∨ files.length = 0 then (s, .badRequest "Client ID and files are required")
    else
      match readDb s with
      | .error _ => (s, .serverError "Error uploading photos")
      | .ok db =>
        let maxId : Int :=
          if db.photos.length > 0 then maxIds (db.photos.map (·.id)) else 0
        let newPhotos := files.enum.map (mkPhoto maxId cid now)
        (writeDb { db with photos := db.photos ++ newPhotos }, .createdPhotos newPhotos)

/-- DELETE /api/photos/:id after `parseInt` of the path parameter: 404 when no
photo's id strictly equals it; otherwise remove that photo (blob unlink is
best-effort) and save. -/
def deletePhotoP (s : FileState) (pid : Option Int) : FileState × Response :=
  match readDb s with
  | .error _ => (s, .serverError "Error deleting photo")
  | .ok db =>
    match spliceFirst (fun p => jsEqNum (some p.id) pid) db.photos with
    | none => (s, .notFound "Photo not found")
    | some photos1 => (writeDb { db with photos := photos1 }, .okMsg "Photo deleted")

/-- find followed by in-place mutation: flip `favorite` on the first photo
whose id strictly equals `pid`, returning the updated list and the updated
photo; `none` when there is no match. -/
def toggleFirst (pid : Option Int) : List Photo → Option (List Photo × Photo)
  | [] => none
  | p :: ps =>
    if jsEqNum (some p.id) pid then
      some (({ p with favorite := ! p.favorite }) :: ps, { p with favorite := ! p.favorite })
    else (toggleFirst pid ps).map (fun r => (p :: r.1, r.2))

/-- PUT /api/photos/:id/favorite after `parseInt` of the path parameter: 404
when no photo's id strictly equals it; otherwise flip its `favorite`, save,
and return the updated photo. -/
def toggleFavoriteP (s : FileState) (pid : Option Int) : FileState × Response :=
  match readDb s with
  | .error _ => (s, .serverError "Error updating photo")
  | .ok db =>
    match toggleFirst pid db.photos with
    | none => (s, .notFound "Photo not found")
    | some r => (writeDb { db with photos := r.1 }, .okPhoto r.2)

/-- A request to one of the five mutating endpoints, with its inputs. -/
inductive Op where
  | createClient (name email phone : Option String)
  | deleteClient (idStr : String)
  | uploadPhotos (clientId : Option String) (files : List UploadedFile) (now : String)
  | deletePhoto (idStr : String)
  | toggleFavorite (idStr : String)

def applyOp (s : FileState) : Op → FileState × Response
  | .createClient n e p => postClients s n e p
  | .deleteClient i => deleteClient s i
  | .uploadPhotos c f now => postPhotos s c f now
  | .deletePhoto i => deletePhotoP s (parseIntJS i)
  | .toggleFavorite i => toggleFavoriteP s (parseIntJS i)

/-- Run a sequence of mutating requests, keeping the file state. -/
def runOps (s : FileState) : List Op → FileState
  | [] => s
  | op :: ops => runOps (applyOp s op).1 ops

/-- Run a sequence of create-client requests, collecting every response. -/
def createSeq : FileState → List (String × Option String × Option String) →
    FileState × List Response
  | s, [] => (s, [])
  | s, r :: rest =>
    let step := postClients s (some r.1) r.2.1 r.2.2
    let rec1 := createSeq step.1 rest
    (rec1.1, step.2 :: rec1.2)

/-- Both id columns of a document are duplicate-free. -/
def GoodDb (db : Db) : Prop :=
  (db.clients.map (·.id)).Nodup ∧ (db.photos.map (·.id)).Nodup

instance (db : Db) : Decidable (GoodDb db) := by
  unfold GoodDb; infer_instance

/-! Helper lemmas about `maxIds`, `spliceFirst` and `toggleFirst`. -/

theorem le_foldl_max (l : List Int) (b : Int) : b ≤ l.foldl max b := by
  induction l generalizing b with
  | nil => exact le_refl b
  | cons x xs ih => exact le_trans (le_max_left b x) (ih (max b x))

theorem mem_le_foldl_max (l : List Int) (b x : Int) (hx : x ∈ l) :
    x ≤ l.foldl max b := by
  induction l generalizing b with
  | nil => cases hx
  | cons y ys ih =>
    rcases List.mem_cons.mp hx with rfl | h
    · exact le_trans (le_max_right b x) (le_foldl_max ys (max b x))
    · exact ih (max b y) h

theorem mem_le_maxIds {l : List Int} {x : Int} (hx : x ∈ l) : x ≤ maxIds l := by
  match l, hx with
  | y :: ys, hx =>
    rcases List.mem_cons.mp hx with rfl | h
    · exact le_foldl_max ys x
    · exact mem_le_foldl_max ys y x h

theorem maxIds_append_single {l : List Int} (hl : l ≠ []) (x : Int) :
    maxIds (l ++ [x]) = max (maxIds l) x := by
  match l, hl with
  | y :: ys, _ =>
    show ((ys ++ [x]).foldl max y) = max (ys.foldl max y) x
    rw [List.foldl_append]
    rfl

/-- The id column produced by k successful sequential client creations from
the empty store: 1, 2, ..., k. -/
def idSeq (k : Nat) : List Int := (List.range k).map (fun (j : Nat) => (j : Int) + 1)

theorem idSeq_succ (k : Nat) : idSeq (k + 1) = idSeq k ++ [(k : Int) + 1] := by
  simp [idSeq, List.range_succ]

theorem idSeq_length (k : Nat) : (idSeq k).length = k := by
  unfold idSeq
  rw [List.length_map, List.length_range]

theorem maxIds_idSeq (k : Nat) : maxIds (idSeq (k + 1)) = (k : Int) + 1 := by
  induction k with
  | zero => rfl
  | succ n ih =>
    have hne : idSeq (n + 1) ≠ [] := by
      intro h
      have := idSeq_length (n + 1)
      rw [h] at this
      simp at this
    rw [idSeq_succ (n + 1), maxIds_append_single hne, ih]
    push_cast
    omega

theorem spliceFirst_none {α : Type} {p : α → Bool} {l : List α}
    (h : ∀ x ∈ l, p x = false) : spliceFirst p l = none := by
  induction l with
  | nil => rfl
  | cons x xs ih =>
    have hx := h x (List.mem_cons_self x xs)
    have hrest : spliceFirst p xs = none :=
      ih (fun y hy => h y (List.mem_cons_of_mem x hy))
    simp [spliceFirst, hx, hrest]

theorem spliceFirst_sublist {α : Type} {p : α → Bool} {l l1 : List α}
    (h : spliceFirst p l = some l1) : l1.Sublist l := by
  induction l generalizing l1 with
  | nil => simp [spliceFirst] at h
  | cons x xs ih =>
    by_cases hx : p x
    · simp [spliceFirst, hx] at h
      subst h
      exact List.sublist_cons_self x xs
    · simp [spliceFirst, hx] at h
      obtain ⟨ys, hys, rfl⟩ := h
      exact (ih hys).cons₂ x

theorem spliceFirst_eq_filter {α : Type} (f : α → Int) (a : α) {l : List α}
    (hn : (l.map f).Nodup) (ha : a ∈ l) :
    spliceFirst (fun x => f x == f a) l = some (l.filter (fun x => f x != f a)) := by
  induction l with
  | nil => cases ha
  | cons x xs ih =>
    have hn1 : f x ∉ xs.map f := (List.nodup_cons.mp (by simpa using hn)).1
    have hn2 : (xs.map f).Nodup := (List.nodup_cons.mp (by simpa using hn)).2
    rcases List.mem_cons.mp ha with rfl | hmem
    · have hxs : xs.filter (fun y => f y != f a) = xs := by
        apply List.filter_eq_self.mpr
        intro y hy
        simp only [bne_iff_ne, ne_eq, decide_eq_true_eq]
        intro he
        exact hn1 (he ▸ List.mem_map_of_mem f hy)
      simp [spliceFirst, hxs]
    · have hfx : f x ≠ f a := by
        intro he
        exact hn1 (he.symm ▸ List.mem_map_of_mem f hmem)
      have hrec := ih hn2 hmem
      simp [spliceFirst, hfx, hrec]

theorem toggleFirst_none {pid : Option Int} {l : List Photo}
    (h : ∀ q ∈ l, jsEqNum (some q.id) pid = false) : toggleFirst pid l = none := by
  induction l with
  | nil => rfl
  | cons q qs ih =>
    have hq := h q (List.mem_cons_self q qs)
    have hrest := ih (fun r hr => h r (List.mem_cons_of_mem q hr))
    simp [toggleFirst, hq, hrest]

theorem toggleFirst_eq {pid : Option Int} {l1 l2 : List Photo} {p : Photo}
    (hfirst : ∀ q ∈ l1, jsEqNum (some q.id) pid = false)
    (hp : jsEqNum (some p.id) pid = true) :
    toggleFirst pid (l1 ++ p :: l2) =
      some (l1 ++ ({ p with favorite := ! p.favorite }) :: l2,
            { p with favorite := ! p.favorite }) := by
  induction l1 with
  | nil => simp [toggleFirst, hp]
  | cons q qs ih =>
    have hq := hfirst q (List.mem_cons_self q qs)
    have hrec := ih (fun r hr => hfirst r (List.mem_cons_of_mem q hr))
    simp [toggleFirst, hq, hrec]

theorem toggleFirst_map_id {pid : Option Int} {l : List Photo}
    {r : List Photo × Photo} (h : toggleFirst pid l = some r) :
    r.1.map (·.id) = l.map (·.id) := by
  induction l generalizing r with
  | nil => simp [toggleFirst] at h
  | cons q qs ih =>
    by_cases hq : jsEqNum (some q.id) pid
    · simp [toggleFirst, hq] at h
      subst h
      rfl
    · simp [toggleFirst, hq] at h
      obtain ⟨s, p2, hs, hr⟩ := h
      subst hr
      simp [ih hs]

/-- In a list whose id column is duplicate-free, every member is the first
element bearing its id: the list splits around it with no earlier match. -/
theorem first_decomp {l : List Photo} {p : Photo}
    (hn : (l.map (·.id)).Nodup) (hp : p ∈ l) :
    ∃ l1 l2, l = l1 ++ p :: l2 ∧ ∀ q ∈ l1, jsEqNum (some q.id) (some p.id) = false := by
  induction l with
  | nil => cases hp
  | cons x xs ih =>
    have hn1 : x.id ∉ xs.map (·.id) := (List.nodup_cons.mp (by simpa using hn)).1
    have hn2 : (xs.map (·.id)).Nodup := (List.nodup_cons.mp (by simpa using hn)).2
    rcases List.mem_cons.mp hp with rfl | hmem
    · exact ⟨[], xs, rfl, by intro q hq; cases hq⟩
    · obtain ⟨l1, l2, hdec, hfst⟩ := ih hn2 hmem
      refine ⟨x :: l1, l2, by simp [hdec], ?_⟩
      intro q hq
      rcases List.mem_cons.mp hq with rfl | hq1
      · simp only [jsEqNum, beq_eq_false_iff_ne, ne_eq]
        intro he
        apply hn1
        rw [he]
        exact List.mem_map_of_mem (·.id) hmem
      · exact hfst q hq1

/-! Concrete sample data used by the witnesses. -/

def clientA : Client := { id := 1, name := "Alice", email := none, phone := none }

def photoA : Photo :=
  { id := 1, clientId := some 1, name := "a.jpg", url := "/uploads/f1.jpg",
    size := 10, uploaded := "t1", favorite := false }

def dbW : Db := { clients := [clientA], photos := [photoA] }

/-! Claim theorems. -/

/-- C7: readDb returns the default empty document exactly when the backing
file is absent (the read throws ENOENT); a read failure with any other code,
or a JSON parse failure (whose SyntaxError carries no code), propagates as an
error; a stored document is returned as parsed; and loading never writes, so
the read-only route leaves the file state unchanged. -/
theorem readDb_load_contract :
    readDb .missing = .ok emptyDb
    ∧ (∀ c : Option String, c ≠ some "ENOENT" →
        readDb (.unreadable c) = .error (.fsError c))
    ∧ readDb .malformed = .error .parseError
    ∧ (∀ db : Db, readDb (.stored db) = .ok db)
    ∧ (∀ s : FileState, (getData s).1 = s) := by
  refine ⟨rfl, ?_, rfl, fun db => rfl, ?_⟩
  · intro c hc
    simp [readDb, hc]
  · intro s
    unfold getData
    cases h : readDb s <;> rfl

theorem readDb_load_contract_witness :
    (some "EACCES" : Option String) ≠ some "ENOENT"
    ∧ readDb (.unreadable (some "EACCES")) = .error (.fsError (some "EACCES")) :=
  ⟨by decide, readDb_load_contract.2.1 (some "EACCES") (by decide)⟩

/-- C8: GET /api/data never writes the store: the file state afterwards is the
file state before, the loaded document is returned verbatim, and a repeated
call with no interleaved writes returns the identical response. -/
theorem getData_idempotent (s : FileState) :
    (getData s).1 = s
    ∧ (∀ db : Db, readDb s = .ok db → (getData s).2 = .okData db)
    ∧ (getData ((getData s).1)).2 = (getData s).2 := by
  have h1 : (getData s).1 = s := by
    unfold getData
    cases h : readDb s <;> rfl
  refine ⟨h1, ?_, by rw [h1]⟩
  intro db hdb
  unfold getData
  rw [hdb]

theorem getData_idempotent_witness :
    readDb (.stored dbW) = .ok dbW
    ∧ (getData (.stored dbW)).2 = .okData dbW :=
  ⟨rfl, (getData_idempotent (.stored dbW)).2.1 dbW rfl⟩

/-- C3: validation errors (create-client with missing or empty name; upload
with missing clientId or no files) and not-found errors (delete-client,
delete-photo or toggle-favorite whose parsed id strictly equals no stored id)
are detected before any mutation: the handler returns the 400/404 response and
the file state is exactly the state before the request. -/
theorem errors_leave_store_unchanged (s : FileState) (db : Db)
    (hdb : readDb s = .ok db)
    (name email phone clientId : Option String)
    (files : List UploadedFile) (now : String)
    (cid pid tid : Option Int)
    (hname : name = none ∨ name = some "")
    (hup : clientId = none ∨ clientId = some "" ∨ files = [])
    (hcid : ∀ c ∈ db.clients, jsEqNum (some c.id) cid = false)
    (hpid : ∀ p ∈ db.photos, jsEqNum (some p.id) pid = false)
    (htid : ∀ p ∈ db.photos, jsEqNum (some p.id) tid = false) :
    postClients s name email phone = (s, .badRequest "Client name is required")
    ∧ postPhotos s clientId files now
        = (s, .badRequest "Client ID and files are required")
    ∧ deleteClientP s cid = (s, .notFound "Client not found")
    ∧ deletePhotoP s pid = (s, .notFound "Photo not found")
    ∧ toggleFavoriteP s tid = (s, .notFound "Photo not found") := by
  refine ⟨?_, ?_, ?_, ?_, ?_⟩
  · rcases hname with rfl | rfl <;> rfl
  · rcases hup with rfl | rfl | rfl
    · rfl
    · rfl
    · cases clientId with
      | none => rfl
      | some c2 => simp [postPhotos]
  · unfold deleteClientP
    rw [hdb]
    simp [spliceFirst_none hcid]
  · unfold deletePhotoP
    rw [hdb]
    simp [spliceFirst_none hpid]
  · unfold toggleFavoriteP
    rw [hdb]
    simp [toggleFirst_none htid]

theorem errors_leave_store_unchanged_witness :
    readDb (.stored dbW) = .ok dbW
    ∧ ((none : Option String) = none ∨ (none : Option String) = some "")
    ∧ ((none : Option String) = none ∨ (none : Option String) = some ""
        ∨ ([] : List UploadedFile) = [])
    ∧ (∀ c ∈ dbW.clients, jsEqNum (some c.id) (some 99) = false)
    ∧ (∀ p ∈ dbW.photos, jsEqNum (some p.id) (some 99) = false)
    ∧ (∀ p ∈ dbW.photos, jsEqNum (some p.id) none = false)
    ∧ postClients (.stored dbW) none none none
        = (.stored dbW, .badRequest "Client name is required")
    ∧ postPhotos (.stored dbW) none [] "t2"
        = (.stored dbW, .badRequest "Client ID and files are required")
    ∧ deleteClientP (.stored dbW) (some 99) = (.stored dbW, .notFound "Client not found")
    ∧ deletePhotoP (.stored dbW) (some 99) = (.stored dbW, .notFound "Photo not found")
    ∧ toggleFavoriteP (.stored dbW) none = (.stored dbW, .notFound "Photo not found") := by
  have h := errors_leave_store_unchanged (.stored dbW) dbW rfl
    none none none none [] "t2" (some 99) (some 99) none
    (Or.inl rfl) (Or.inl rfl) (by decide) (by decide) (by decide)
  exact ⟨rfl, Or.inl rfl, Or.inl rfl, by decide, by decide, by decide,
    h.1, h.2.1, h.2.2.1, h.2.2.2.1, h.2.2.2.2⟩

/-- Single create-client step on a stored document, in closed form. -/
theorem postClients_stored (db : Db) (nm : String) (hnm : nm ≠ "")
    (email phone : Option String) :
    postClients (.stored db) (some nm) email phone
      = (.stored { db with clients := db.clients ++
            [{ id := if db.clients.length > 0 then maxIds (db.clients.map (·.id)) + 1 else 1,
               name := nm, email := email, phone := phone }] },
         .createdClient
           { id := if db.clients.length > 0 then maxIds (db.clients.map (·.id)) + 1 else 1,
             name := nm, email := email, phone := phone }) := by
  simp [postClients, hnm, readDb, writeDb]

/-- Along a run of successful creations, if the id column so far is 1..k then
the i-th remaining response is a created client with id k+i+1. -/
theorem createSeq_ids (reqs : List (String × Option String × Option String))
    (hreqs : ∀ r ∈ reqs, r.1 ≠ "") (db : Db) (k : Nat)
    (hdb : db.clients.map (·.id) = idSeq k) :
    ∀ i, i < reqs.length →
      ∃ c : Client,
        (createSeq (.stored db) reqs).2.get? i = some (.createdClient c)
        ∧ c.id = (k : Int) + (i : Int) + 1 := by
  induction reqs generalizing db k with
  | nil =>
    intro i hi
    simp at hi
  | cons r rest ih =>
    have hr1 : r.1 ≠ "" := hreqs r (List.mem_cons_self r rest)
    have hnew : (if db.clients.length > 0 then maxIds (db.clients.map (·.id)) + 1 else 1)
        = (k : Int) + 1 := by
      cases k with
      | zero =>
        have hnil : db.clients = [] := by
          have := congrArg List.length hdb
          rw [List.length_map, idSeq_length] at this
          exact List.length_eq_zero.mp this
        simp [hnil]
      | succ n =>
        have hlen : db.clients.length > 0 := by
          have := congrArg List.length hdb
          rw [List.length_map, idSeq_length] at this
          omega
        rw [if_pos hlen, hdb, maxIds_idSeq]
        push_cast
        ring
    have hstep := postClients_stored db r.1 hr1 r.2.1 r.2.2
    rw [hnew] at hstep
    have hdb1 : ({ db with clients := db.clients ++
        [{ id := (k : Int) + 1, name := r.1, email := r.2.1, phone := r.2.2 }] } :
          Db).clients.map (·.id) = idSeq (k + 1) := by
      rw [idSeq_succ]
      simp [hdb]
    intro i hi
    cases i with
    | zero =>
      refine ⟨{ id := (k : Int) + 1, name := r.1, email := r.2.1, phone := r.2.2 }, ?_, by push_cast; ring⟩
      simp [createSeq, hstep]
    | succ j =>
      have hj : j < rest.length := by
        simp at hi
        omega
      obtain ⟨c, hc1, hc2⟩ :=
        ih (fun q hq => hreqs q (List.mem_cons_of_mem r hq)) _ (k + 1) hdb1 j hj
      refine ⟨c, ?_, by push_cast at hc2 ⊢; omega⟩
      simp only [createSeq]
      rw [hstep]
      simpa using hc1

/-- C1: create-client with a non-empty name appends exactly one client, whose
id is max(existing client ids)+1 or 1 when the clients list is empty, and
returns that client; and along any sequence of sequential creations from the
empty store the i-th response is a created client with id i+1. -/
theorem createClient_id_assignment (db : Db) (nm : String) (hnm : nm ≠ "")
    (email phone : Option String)
    (reqs : List (String × Option String × Option String))
    (hreqs : ∀ r ∈ reqs, r.1 ≠ "") :
    (∃ c : Client,
      postClients (.stored db) (some nm) email phone
        = (.stored { db with clients := db.clients ++ [c] }, .createdClient c)
      ∧ c.id = (if db.clients = [] then 1 else maxIds (db.clients.map (·.id)) + 1)
      ∧ c.name = nm)
    ∧ (∀ i, i < reqs.length →
        ∃ c : Client,
          (createSeq (.stored emptyDb) reqs).2.get? i = some (.createdClient c)
          ∧ c.id = (i : Int) + 1) := by
  constructor
  · refine ⟨{ id := if db.clients.length > 0 then maxIds (db.clients.map (·.id)) + 1 else 1,
              name := nm, email := email, phone := phone },
            postClients_stored db nm hnm email phone, ?_, rfl⟩
    cases db.clients with
    | nil => simp
    | cons c cs => simp
  · intro i hi
    obtain ⟨c, hc1, hc2⟩ := createSeq_ids reqs hreqs emptyDb 0 rfl i hi
    refine ⟨c, hc1, ?_⟩
    rw [hc2]
    push_cast
    ring

theorem createClient_id_assignment_witness :
    "Bob" ≠ ""
    ∧ (∀ r ∈ [("Ann", (none : Option String), (none : Option String)),
              ("Cy", none, none)], r.1 ≠ "")
    ∧ (∃ c : Client,
        postClients (.stored dbW) (some "Bob") none none
          = (.stored { dbW with clients := dbW.clients ++ [c] }, .createdClient c)
        ∧ c.id = (if dbW.clients = [] then 1 else maxIds (dbW.clients.map (·.id)) + 1)
        ∧ c.name = "Bob")
    ∧ (∀ i, i < [("Ann", (none : Option String), (none : Option String)),
                 ("Cy", none, none)].length →
        ∃ c : Client,
          (createSeq (.stored emptyDb)
              [("Ann", none, none), ("Cy", none, none)]).2.get? i
            = some (.createdClient c)
          ∧ c.id = (i : Int) + 1) := by
  have h := createClient_id_assignment dbW "Bob" (by decide) none none
    [("Ann", none, none), ("Cy", none, none)] (by decide)
  exact ⟨by decide, by decide, h.1, h.2⟩

/-- C2: deleting a client present in a document whose client ids are unique
removes exactly that client from the clients list and exactly the photos whose
clientId strictly equals its id from the photos list; every other client and
every photo with a different (or NaN) clientId survives, in order. -/
theorem deleteClient_cascade (db : Db) (c : Client)
    (hn : (db.clients.map (·.id)).Nodup) (hc : c ∈ db.clients) :
    deleteClientP (.stored db) (some c.id)
      = (.stored { clients := db.clients.filter (fun x => x.id != c.id),
                   photos := db.photos.filter (fun p => ! jsEqNum p.clientId (some c.id)) },
         .okMsg "Client and associated photos deleted") := by
  have hpred : (fun x : Client => jsEqNum (some x.id) (some c.id))
      = (fun x : Client => x.id == c.id) := rfl
  have hsplice := spliceFirst_eq_filter (fun x : Client => x.id) c hn hc
  unfold deleteClientP
  rw [show readDb (.stored db) = .ok db from rfl]
  simp only [hpred, hsplice, writeDb]

theorem deleteClient_cascade_witness :
    (dbW.clients.map (·.id)).Nodup
    ∧ clientA ∈ dbW.clients
    ∧ deleteClientP (.stored dbW) (some clientA.id)
        = (.stored { clients := dbW.clients.filter (fun x => x.id != clientA.id),
                     photos := dbW.photos.filter
                       (fun p => ! jsEqNum p.clientId (some clientA.id)) },
           .okMsg "Client and associated photos deleted") :=
  ⟨by decide, by decide, deleteClient_cascade dbW clientA (by decide) (by decide)⟩

/-- Ids of an upload batch built by mkPhoto: maxId+1 .. maxId+n, in order. -/
theorem enum_mkPhoto_ids (maxId : Int) (cid now : String) (files : List UploadedFile) :
    (files.enum.map (mkPhoto maxId cid now)).map (·.id)
      = (List.range files.length).map (fun (i : Nat) => maxId + (i : Int) + 1) := by
  rw [List.map_map, ← List.enum_map_fst files, List.map_map]
  rfl

/-- Original names of an upload batch built by mkPhoto: the files' names, in
arrival order. -/
theorem enum_mkPhoto_names (maxId : Int) (cid now : String) (files : List UploadedFile) :
    (files.enum.map (mkPhoto maxId cid now)).map (·.name)
      = files.map (·.originalname) := by
  conv_rhs => rw [← List.enum_map_snd files]
  rw [List.map_map, List.map_map]
  rfl

/-- Successful upload on a stored document, in closed form. -/
theorem postPhotos_stored (db : Db) (cid : String) (hcid : cid ≠ "")
    (files : List UploadedFile) (hf : files ≠ []) (now : String) :
    postPhotos (.stored db) (some cid) files now
      = (.stored { db with photos := db.photos ++
            (files.enum.map (mkPhoto
              (if db.photos.length > 0 then maxIds (db.photos.map (·.id)) else 0) cid now)) },
         .createdPhotos (files.enum.map (mkPhoto
            (if db.photos.length > 0 then maxIds (db.photos.map (·.id)) else 0) cid now))) := by
  have hlen : ¬ files.length = 0 := by
    have := List.length_pos.mpr hf
    omega
  simp [postPhotos, hcid, hlen, readDb, writeDb]

/-- C4: a valid upload (clientId present and non-empty, n ≥ 1 files) appends
exactly one photo per file; their ids are base+1..base+n in arrival order
where base is the maximum existing photo id, or 0 when the photos list is
empty; every created photo has favorite false and clientId the parse of the
given field; and the batch is returned in the order uploaded. -/
theorem uploadPhotos_batch (db : Db) (cid : String) (hcid : cid ≠ "")
    (files : List UploadedFile) (hf : files ≠ []) (now : String) :
    ∃ ps : List Photo,
      postPhotos (.stored db) (some cid) files now
        = (.stored { db with photos := db.photos ++ ps }, .createdPhotos ps)
      ∧ ps.length = files.length
      ∧ ps.map (·.id) = (List.range files.length).map
          (fun (i : Nat) =>
            (if db.photos.length > 0 then maxIds (db.photos.map (·.id)) else 0)
              + (i : Int) + 1)
      ∧ (∀ p ∈ ps, p.favorite = false ∧ p.clientId = parseIntJS cid)
      ∧ ps.map (·.name) = files.map (·.originalname) := by
  refine ⟨files.enum.map
      (mkPhoto (if db.photos.length > 0 then maxIds (db.photos.map (·.id)) else 0) cid now),
    postPhotos_stored db cid hcid files hf now, ?_, enum_mkPhoto_ids _ _ _ _, ?_,
    enum_mkPhoto_names _ _ _ _⟩
  · rw [List.length_map, List.enum_length]
  · intro p hp
    obtain ⟨fi, hfi, rfl⟩ := List.mem_map.mp hp
    exact ⟨rfl, rfl⟩

theorem uploadPhotos_batch_witness :
    "7" ≠ ""
    ∧ ([⟨"a.jpg", "f1.jpg", 10⟩, ⟨"b.jpg", "f2.jpg", 20⟩] : List UploadedFile) ≠ []
    ∧ (∃ ps : List Photo,
        postPhotos (.stored dbW) (some "7")
            [⟨"a.jpg", "f1.jpg", 10⟩, ⟨"b.jpg", "f2.jpg", 20⟩] "t3"
          = (.stored { dbW with photos := dbW.photos ++ ps }, .createdPhotos ps)
        ∧ ps.length = ([⟨"a.jpg", "f1.jpg", 10⟩, ⟨"b.jpg", "f2.jpg", 20⟩] :
            List UploadedFile).length
        ∧ ps.map (·.id) = (List.range ([⟨"a.jpg", "f1.jpg", 10⟩, ⟨"b.jpg", "f2.jpg", 20⟩] :
            List UploadedFile).length).map
            (fun (i : Nat) =>
              (if dbW.photos.length > 0 then maxIds (dbW.photos.map (·.id)) else 0)
                + (i : Int) + 1)
        ∧ (∀ p ∈ ps, p.favorite = false ∧ p.clientId = parseIntJS "7")
        ∧ ps.map (·.name) = ([⟨"a.jpg", "f1.jpg", 10⟩, ⟨"b.jpg", "f2.jpg", 20⟩] :
            List UploadedFile).map (·.originalname)) := by
  refine ⟨by decide, by decide, ?_⟩
  exact uploadPhotos_batch dbW "7" (by decide)
    [⟨"a.jpg", "f1.jpg", 10⟩, ⟨"b.jpg", "f2.jpg", 20⟩] (by decide) "t3"

/-- One favorite toggle on a stored document whose photos split around the
first photo bearing the requested id, in closed form. -/
theorem toggleFavoriteP_split (db : Db) (p : Photo) (l1 l2 : List Photo)
    (hdec : db.photos = l1 ++ p :: l2)
    (hfirst : ∀ q ∈ l1, jsEqNum (some q.id) (some p.id) = false) :
    toggleFavoriteP (.stored db) (some p.id)
      = (.stored { db with photos := l1 ++ ({ p with favorite := ! p.favorite }) :: l2 },
         .okPhoto { p with favorite := ! p.favorite }) := by
  have hp1 : jsEqNum (some p.id) (some p.id) = true := by simp [jsEqNum]
  have h1 := @toggleFirst_eq (some p.id) l1 l2 p hfirst hp1
  unfold toggleFavoriteP
  rw [show readDb (.stored db) = .ok db from rfl]
  simp only [hdec, h1, writeDb]

/-- C6: toggling the favorite flag of a photo present in a document with
unique photo ids returns the updated photo with the flag flipped, and a second
toggle on the same id restores the document — hence the photo's favorite
field — exactly. -/
theorem toggleFavorite_involution (db : Db) (p : Photo)
    (hn : (db.photos.map (·.id)).Nodup) (hp : p ∈ db.photos) :
    (toggleFavoriteP (.stored db) (some p.id)).2
        = .okPhoto { p with favorite := ! p.favorite }
    ∧ (toggleFavoriteP (toggleFavoriteP (.stored db) (some p.id)).1 (some p.id)).1
        = .stored db
    ∧ (toggleFavoriteP (toggleFavoriteP (.stored db) (some p.id)).1 (some p.id)).2
        = .okPhoto p := by
  obtain ⟨l1, l2, hdec, hfirst⟩ := first_decomp hn hp
  have hcall1 := toggleFavoriteP_split db p l1 l2 hdec hfirst
  have hpp : ({ p with favorite := ! ! p.favorite } : Photo) = p := by
    cases p
    simp
  have hcall2 := toggleFavoriteP_split
    { db with photos := l1 ++ ({ p with favorite := ! p.favorite }) :: l2 }
    { p with favorite := ! p.favorite } l1 l2 rfl hfirst
  rw [hcall1]
  refine ⟨rfl, ?_, ?_⟩
  · simp only [hcall2, hpp]
    rw [← hdec]
  · simp only [hcall2, hpp]

theorem toggleFavorite_involution_witness :
    (dbW.photos.map (·.id)).Nodup
    ∧ photoA ∈ dbW.photos
    ∧ (toggleFavoriteP (.stored dbW) (some photoA.id)).2
        = .okPhoto { photoA with favorite := ! photoA.favorite }
    ∧ (toggleFavoriteP (toggleFavoriteP (.stored dbW) (some photoA.id)).1 (some photoA.id)).1
        = .stored dbW
    ∧ (toggleFavoriteP (toggleFavoriteP (.stored dbW) (some photoA.id)).1 (some photoA.id)).2
        = .okPhoto photoA := by
  have h := toggleFavorite_involution dbW photoA (by decide) (by decide)
  exact ⟨by decide, by decide, h.1, h.2.1, h.2.2⟩

/-- C9: a successful favorite toggle changes only the matched photo's favorite
field: its other fields, every photo before and after it, and the entire
clients list are carried unchanged into the saved document, and the saved
photos list differs from the old one only at that photo's position. -/
theorem toggleFavorite_frame (db : Db) (p : Photo)
    (hn : (db.photos.map (·.id)).Nodup) (hp : p ∈ db.photos) :
    ∃ l1 l2, db.photos = l1 ++ p :: l2
      ∧ toggleFavoriteP (.stored db) (some p.id)
          = (.stored { clients := db.clients,
                       photos := l1 ++ ({ p with favorite := ! p.favorite }) :: l2 },
             .okPhoto { p with favorite := ! p.favorite }) := by
  obtain ⟨l1, l2, hdec, hfirst⟩ := first_decomp hn hp
  exact ⟨l1, l2, hdec, toggleFavoriteP_split db p l1 l2 hdec hfirst⟩

theorem toggleFavorite_frame_witness :
    (dbW.photos.map (·.id)).Nodup
    ∧ photoA ∈ dbW.photos
    ∧ (∃ l1 l2, dbW.photos = l1 ++ photoA :: l2
        ∧ toggleFavoriteP (.stored dbW) (some photoA.id)
            = (.stored { clients := dbW.clients,
                         photos := l1 ++ ({ photoA with favorite := ! photoA.favorite }) :: l2 },
               .okPhoto { photoA with favorite := ! photoA.favorite })) :=
  ⟨by decide, by decide, toggleFavorite_frame dbW photoA (by decide) (by decide)⟩

/-- NaN on the left of strict equality is never equal to anything. -/
theorem jsEqNum_none_left (b : Option Int) : jsEqNum none b = false := by
  cases b <;> rfl

/-- C10: upload validation only checks that clientId is present and non-empty
and that at least one file is attached; a clientId string that does not parse
as an integer is accepted, every photo of the batch is stored with NaN
clientId, and a photo with NaN clientId survives every delete-client cascade,
whatever id that request carries. -/
theorem upload_nan_clientId (db : Db) (cid : String) (hcid : cid ≠ "")
    (hparse : parseIntJS cid = none)
    (files : List UploadedFile) (hf : files ≠ []) (now : String) :
    (∃ ps : List Photo,
      postPhotos (.stored db) (some cid) files now
        = (.stored { db with photos := db.photos ++ ps }, .createdPhotos ps)
      ∧ ps.length = files.length
      ∧ (∀ p ∈ ps, p.clientId = none))
    ∧ (∀ (db2 : Db) (cid2 : Option Int) (p : Photo), p ∈ db2.photos →
        p.clientId = none →
        ∀ db3 r, deleteClientP (.stored db2) cid2 = (.stored db3, r) →
          p ∈ db3.photos) := by
  constructor
  · refine ⟨files.enum.map
        (mkPhoto (if db.photos.length > 0 then maxIds (db.photos.map (·.id)) else 0) cid now),
      postPhotos_stored db cid hcid files hf now, ?_, ?_⟩
    · rw [List.length_map, List.enum_length]
    · intro p hp
      obtain ⟨fi, hfi, rfl⟩ := List.mem_map.mp hp
      simpa [mkPhoto] using hparse
  · intro db2 cid2 p hp hnan db3 r heq
    unfold deleteClientP at heq
    cases hsp : spliceFirst (fun c => jsEqNum (some c.id) cid2) db2.clients with
    | none =>
      simp only [readDb, hsp, Prod.mk.injEq, FileState.stored.injEq] at heq
      rw [← heq.1]
      exact hp
    | some clients1 =>
      simp only [readDb, hsp, writeDb, Prod.mk.injEq, FileState.stored.injEq] at heq
      rw [← heq.1]
      apply List.mem_filter.mpr
      refine ⟨hp, ?_⟩
      rw [hnan, jsEqNum_none_left]
      rfl

theorem upload_nan_clientId_witness :
    "abc" ≠ ""
    ∧ parseIntJS "abc" = none
    ∧ ([⟨"a.jpg", "f1.jpg", 10⟩] : List UploadedFile) ≠ []
    ∧ ((∃ ps : List Photo,
        postPhotos (.stored dbW) (some "abc") [⟨"a.jpg", "f1.jpg", 10⟩] "t4"
          = (.stored { dbW with photos := dbW.photos ++ ps }, .createdPhotos ps)
        ∧ ps.length = ([⟨"a.jpg", "f1.jpg", 10⟩] : List UploadedFile).length
        ∧ (∀ p ∈ ps, p.clientId = none))
      ∧ (∀ (db2 : Db) (cid2 : Option Int) (p : Photo), p ∈ db2.photos →
          p.clientId = none →
          ∀ db3 r, deleteClientP (.stored db2) cid2 = (.stored db3, r) →
            p ∈ db3.photos)) := by
  refine ⟨by decide, by decide, by decide, ?_⟩
  exact upload_nan_clientId dbW "abc" (by decide) (by decide)
    [⟨"a.jpg", "f1.jpg", 10⟩] (by decide) "t4"

/-- Appending the freshly derived client id keeps the id column
duplicate-free: the new id exceeds the current maximum. -/
theorem nodup_snoc_newId (ids : List Int) (hn : ids.Nodup) :
    (ids ++ [if ids.length > 0 then maxIds ids + 1 else 1]).Nodup := by
  rw [List.nodup_append]
  refine ⟨hn, List.nodup_singleton _, ?_⟩
  intro a ha hb
  have hane : a = (if ids.length > 0 then maxIds ids + 1 else 1) :=
    List.mem_singleton.mp hb
  have hpos : ids.length > 0 := List.length_pos.mpr (List.ne_nil_of_mem ha)
  rw [if_pos hpos] at hane
  have hle := mem_le_maxIds ha
  omega

/-- Appending a batch of freshly derived photo ids keeps the id column
duplicate-free: the batch is strictly increasing above the current maximum. -/
theorem nodup_upload_ids (pids : List Int) (hn : pids.Nodup) (n : Nat) :
    (pids ++ (List.range n).map
      (fun (i : Nat) =>
        (if pids.length > 0 then maxIds pids else 0) + (i : Int) + 1)).Nodup := by
  rw [List.nodup_append]
  refine ⟨hn, ?_, ?_⟩
  · refine List.Nodup.map ?_ (List.nodup_range n)
    intro a b hab
    simp only at hab
    omega
  · intro a ha hb
    obtain ⟨i, hi, rfl⟩ := List.mem_map.mp hb
    have hpos : pids.length > 0 := List.length_pos.mpr (List.ne_nil_of_mem ha)
    have hle := mem_le_maxIds ha
    rw [if_pos hpos] at hle
    omega

/-- Every mutating operation sends a stored document with duplicate-free id
columns to a stored document with duplicate-free id columns. -/
theorem applyOp_stored_good {db : Db} (h : GoodDb db) (op : Op) :
    ∃ db2, (applyOp (.stored db) op).1 = .stored db2 ∧ GoodDb db2 := by
  obtain ⟨hc, hp⟩ := h
  cases op with
  | createClient name email phone =>
    cases name with
    | none => exact ⟨db, rfl, hc, hp⟩
    | some nm =>
      by_cases hnm : nm = ""
      · subst hnm
        exact ⟨db, rfl, hc, hp⟩
      · refine ⟨{ db with clients := db.clients ++
            [{ id := if db.clients.length > 0 then maxIds (db.clients.map (·.id)) + 1 else 1,
               name := nm, email := email, phone := phone }] }, ?_, ?_, hp⟩
        · show (postClients (.stored db) (some nm) email phone).1 = _
          rw [postClients_stored db nm hnm email phone]
        · have h2 := nodup_snoc_newId (db.clients.map (·.id)) hc
          rw [List.length_map] at h2
          simpa using h2
  | deleteClient i =>
    cases hsp : spliceFirst (fun c => jsEqNum (some c.id) (parseIntJS i)) db.clients with
    | none =>
      refine ⟨db, ?_, hc, hp⟩
      show (deleteClientP (.stored db) (parseIntJS i)).1 = _
      unfold deleteClientP
      simp [readDb, hsp]
    | some clients1 =>
      refine ⟨{ clients := clients1,
                photos := db.photos.filter (fun q => ! jsEqNum q.clientId (parseIntJS i)) },
        ?_, ?_, ?_⟩
      · show (deleteClientP (.stored db) (parseIntJS i)).1 = _
        unfold deleteClientP
        simp [readDb, hsp, writeDb]
      · exact List.Nodup.sublist ((spliceFirst_sublist hsp).map (·.id)) hc
      · exact List.Nodup.sublist
          ((List.filter_sublist db.photos).map (fun q : Photo => q.id)) hp
  | uploadPhotos clientId files now =>
    cases clientId with
    | none => exact ⟨db, rfl, hc, hp⟩
    | some cid =>
      by_cases hcid : cid = ""
      · subst hcid
        exact ⟨db, rfl, hc, hp⟩
      · by_cases hf : files = []
        · subst hf
          refine ⟨db, ?_, hc, hp⟩
          show (postPhotos (.stored db) (some cid) [] now).1 = _
          simp [postPhotos]
        · refine ⟨{ db with photos := db.photos ++
              (files.enum.map (mkPhoto
                (if db.photos.length > 0 then maxIds (db.photos.map (·.id)) else 0)
                cid now)) }, ?_, hc, ?_⟩
          · show (postPhotos (.stored db) (some cid) files now).1 = _
            rw [postPhotos_stored db cid hcid files hf now]
          · simp only [List.map_append, enum_mkPhoto_ids]
            have h2 := nodup_upload_ids (db.photos.map (·.id)) hp files.length
            rw [List.length_map] at h2
            exact h2
  | deletePhoto i =>
    cases hsp : spliceFirst (fun q => jsEqNum (some q.id) (parseIntJS i)) db.photos with
    | none =>
      refine ⟨db, ?_, hc, hp⟩
      show (deletePhotoP (.stored db) (parseIntJS i)).1 = _
      unfold deletePhotoP
      simp [readDb, hsp]
    | some photos1 =>
      refine ⟨{ db with photos := photos1 }, ?_, hc, ?_⟩
      · show (deletePhotoP (.stored db) (parseIntJS i)).1 = _
        unfold deletePhotoP
        simp [readDb, hsp, writeDb]
      · exact List.Nodup.sublist ((spliceFirst_sublist hsp).map (·.id)) hp
  | toggleFavorite i =>
    cases ht : toggleFirst (parseIntJS i) db.photos with
    | none =>
      refine ⟨db, ?_, hc, hp⟩
      show (toggleFavoriteP (.stored db) (parseIntJS i)).1 = _
      unfold toggleFavoriteP
      simp [readDb, ht]
    | some r =>
      refine ⟨{ db with photos := r.1 }, ?_, hc, ?_⟩
      · show (toggleFavoriteP (.stored db) (parseIntJS i)).1 = _
        unfold toggleFavoriteP
        simp [readDb, ht, writeDb]
      · rw [toggleFirst_map_id ht]
        exact hp

/-- C5: starting from a document whose client ids are pairwise distinct and
whose photo ids are pairwise distinct, any sequence of the five mutating
operations leaves the store holding a document whose client ids and photo ids
are still pairwise distinct. -/
theorem ops_preserve_distinct_ids (db : Db) (h : GoodDb db) (ops : List Op) :
    ∃ db2, runOps (.stored db) ops = .stored db2 ∧ GoodDb db2 := by
  induction ops generalizing db with
  | nil => exact ⟨db, rfl, h⟩
  | cons op rest ih =>
    obtain ⟨db1, h1, hg1⟩ := applyOp_stored_good h op
    have hstep : runOps (.stored db) (op :: rest) = runOps (applyOp (.stored db) op).1 rest :=
      rfl
    rw [hstep, h1]
    exact ih db1 hg1

theorem ops_preserve_distinct_ids_witness :
    GoodDb dbW
    ∧ (∃ db2, runOps (.stored dbW)
        [.createClient (some "Bob") none none, .toggleFavorite "1", .deletePhoto "99"]
        = .stored db2 ∧ GoodDb db2) :=
  ⟨by decide, ops_preserve_distinct_ids dbW (by decide)
    [.createClient (some "Bob") none none, .toggleFavorite "1", .deletePhoto "99"]⟩

end OnPoint
